import Mathlib

/-!
# AI-CSuite delivery-pipeline engine and scheduler: verification development

This file embeds the durable step-execution engine (per-step attempt history,
pause/resume with `stop_after`, bounded retry) and the deterministic scheduler
(priority queue, quotas, backpressure) of the ai-csuite orchestrator, and
proves the spec's testable properties about them.

The repository snapshot ships the documentation, database DDL and test
descriptions of these components (`docs/AI-CSUITE_HANDOFF.md`,
`docs/PHASE_TRACKING_CHECKLIST.md`, the `graph_states` DDL with its unique
index `uq_graph_state_run_step_attempt`), but not the Python bodies of
`orchestrator/ai_graph/` and the scheduler module themselves; every
definition below is therefore modelled from the specification's words and
carries a doc comment saying so.
-/

namespace AICsuite

/-- Modelled from the spec: a StepAttempt's status is `ok` or `error`
(§3 StepAttempt, `graph_states.status`). -/
inductive AttemptStatus
  | ok
  | error
deriving DecidableEq, Repr

/-- Modelled from the spec: one execution attempt of one graph step of one run
(§3 StepAttempt; the `graph_states` row shape). The run id is implicit: a
`Run` value owns its own attempt list, so the (run, step, attempt) triple of
the DDL's unique index becomes (step_index, attempt) within one run. The
opaque state/log payloads play no role in any claim and are omitted. -/
structure StepAttempt where
  step_index : Nat
  step_name : String
  attempt : Nat
  status : AttemptStatus
deriving DecidableEq, Repr

/-- Modelled from the spec: run status (§3 Run). -/
inductive RunStatus
  | pending
  | running
  | paused
  | completed
  | failed
deriving DecidableEq, Repr

/-- Modelled from the spec: a run is its status plus its append-only attempt
history, written in execution order (§3 Run, §4.1 Attempt Store). `history`
plays the Attempt Store's role: `history r` of the spec is the list itself,
already ordered by step_index asc then attempt asc because the engine writes
it in that order. -/
structure Run where
  status : RunStatus
  history : List StepAttempt
deriving DecidableEq, Repr

/-- Modelled from the spec: the Graph Definition, an ordered fixed list of
named steps (§2: Product → Design → Research → Plan → Implement →
Verify[loop] → Release). -/
def graphSteps : List String :=
  ["product", "design", "research", "plan", "implement", "verify", "release"]

/-- The Graph Definition with step indices attached: `(step_index, step_name)`
pairs in order. -/
def stepsEnum : List (Nat × String) := graphSteps.enum.map (fun p => (p.1, p.2))

/-- Modelled from the spec: a step function, the opaque external collaborator
(§6). The engine only observes success/failure, so a step function is a
predicate on (step index, attempt number): `true` means the invocation
succeeds. -/
def StepFn : Type := Nat → Nat → Bool

/-- Modelled from the spec: the retry budget — at most 3 attempts per step
(§4.3 Retry Controller). -/
def retryMax : Nat := 3

/-- Whether some attempt for step index `i` in history `h` has status ok. -/
def hasOk (h : List StepAttempt) (i : Nat) : Bool :=
  h.any (fun a => a.step_index == i && a.status == AttemptStatus.ok)

/-- The attempts recorded for step index `i`, in write order. -/
def attemptsOn (h : List StepAttempt) (i : Nat) : List StepAttempt :=
  h.filter (fun a => a.step_index == i)

/-- The next attempt number for step index `i`: one past the number of
attempts already recorded (attempt numbers are contiguous from 1). -/
def nextAttempt (h : List StepAttempt) (i : Nat) : Nat :=
  (attemptsOn h i).length + 1

/-- The number of ok-status attempts recorded for step index `i`. -/
def okCount (h : List StepAttempt) (i : Nat) : Nat :=
  (h.filter (fun a => a.step_index == i && a.status == AttemptStatus.ok)).length

/-- Modelled from the spec: the Retry Controller's attempt loop (§4.3).
`tryAttempts f i name k b` runs step `i` for up to `b` more attempts starting
at attempt number `k`, recording every attempt (success or failure) in order;
it stops at the first success. Returns the recorded attempts and whether the
step succeeded. Backoff delays are logical/tracked values (§5) and do not
appear in the attempt rows, so they are not modelled here. -/
def tryAttempts (f : StepFn) (i : Nat) (name : String) : Nat → Nat → List StepAttempt × Bool
  | _, 0 => ([], false)
  | k, b + 1 =>
    if f i k then
      ([⟨i, name, k, AttemptStatus.ok⟩], true)
    else
      let r := tryAttempts f i name (k + 1) b
      (⟨i, name, k, AttemptStatus.error⟩ :: r.1, r.2)

/-- Modelled from the spec: the Resume Controller's scan (§4.2): the first
step in Graph Definition order with no ok-status attempt yet; `none` means
nothing left. -/
def firstPending (h : List StepAttempt) : List (Nat × String) → Option (Nat × String)
  | [] => none
  | (i, name) :: rest => if hasOk h i then firstPending h rest else some (i, name)

/-- Modelled from the spec: the engine's step loop (§4.3, §4.4). Walks the
remaining Graph Definition in order; skips steps that already have an ok
attempt; runs each pending step through the Retry Controller with budget
`retryMax`, appending every attempt to the history; stops with status
`failed` when a step exhausts its budget, with status `paused` when the
`stop_after` step succeeds, and with status `completed` when all steps are
done. -/
def execSteps (f : StepFn) (stopAfter : Option String) :
    List (Nat × String) → List StepAttempt → List StepAttempt × RunStatus
  | [], h => (h, RunStatus.completed)
  | (i, name) :: rest, h =>
    if hasOk h i then execSteps f stopAfter rest h
    else
      let r := tryAttempts f i name (nextAttempt h i) retryMax
      if r.2 then
        if stopAfter == some name then (h ++ r.1, RunStatus.paused)
        else execSteps f stopAfter rest (h ++ r.1)
      else (h ++ r.1, RunStatus.failed)

/-- Modelled from the spec: the error surface of the engine and scheduler
(§6): `invalidState` for start/resume against a terminal run or with nothing
left to do, `capacity` for enqueue past the backpressure limit, `conflict`
for a duplicate attempt key. -/
inductive ApiError
  | invalidState
  | capacity
  | conflict
deriving DecidableEq, Repr

/-- Modelled from the spec: `start(run_id, options{stop_after?})` (§6, §4.4):
rejected with `InvalidStateError` on a terminal (`completed`/`failed`) run;
otherwise drives the run from its first pending step. -/
def startRun (f : StepFn) (stopAfter : Option String) (r : Run) : Except ApiError Run :=
  if r.status = RunStatus.completed ∨ r.status = RunStatus.failed then
    Except.error ApiError.invalidState
  else
    let p := execSteps f stopAfter stepsEnum r.history
    Except.ok ⟨p.2, p.1⟩

/-- Modelled from the spec: `resume(run_id)` (§4.2, §6; Phase 11 test notes):
rejected with `InvalidStateError` on a terminal run, and rejected as a client
error when nothing is left to resume (every step already has an ok attempt);
otherwise completes the remaining steps. -/
def resumeRun (f : StepFn) (r : Run) : Except ApiError Run :=
  if r.status = RunStatus.completed ∨ r.status = RunStatus.failed then
    Except.error ApiError.invalidState
  else
    match firstPending r.history stepsEnum with
    | none => Except.error ApiError.invalidState
    | some _ =>
      let p := execSteps f none stepsEnum r.history
      Except.ok ⟨p.2, p.1⟩

/-- A run as created by a caller requesting execution: status pending, no
attempt history yet (§3 Run). -/
def freshRun : Run := ⟨RunStatus.pending, []⟩

/-- The runs reachable by any sequence of engine operations from a fresh run:
each operation is a `start` (with arbitrary step functions and optional
`stop_after`) or a `resume`; the scheduler's `step()` advances a leased run
through exactly these operations, so reachability under scheduler driving is
the same relation. Only successful operations change the run; rejected calls
return an error and leave it untouched. -/
inductive Reachable : Run → Prop
  | fresh : Reachable freshRun
  | start (f : StepFn) (so : Option String) (r r' : Run) :
      Reachable r → startRun f so r = Except.ok r' → Reachable r'
  | resume (f : StepFn) (r r' : Run) :
      Reachable r → resumeRun f r = Except.ok r' → Reachable r'

/-- A step function that fails on every invocation. -/
def alwaysFail : StepFn := fun _ _ => false

/-- A step function that succeeds on every invocation. -/
def alwaysOk : StepFn := fun _ _ => true

/-! ## Scheduler (Phase 28): queue, policy, stats, coordinator -/

/-- Modelled from the spec: a pending scheduling request (§3 QueueEntry):
run id, tenant id, priority (higher = more urgent), enqueued timestamp.
Ids and timestamps are naturals; priority is an integer. -/
structure QueueEntry where
  run_id : Nat
  tenant_id : Nat
  priority : Int
  enqueued_at : Nat
deriving DecidableEq, Repr

/-- Modelled from the spec: the process-wide scheduler configuration
(§3 SchedulerPolicy; `SCHED_*` env toggles in the handoff doc). -/
structure SchedulerPolicy where
  global_concurrency : Nat
  tenant_max_active : Nat
  queue_max : Nat
  enabled : Bool
deriving DecidableEq, Repr

/-- Modelled from the spec: monotonically increasing scheduler counters
(§3 SchedulerStats; `GET /scheduler/stats`). -/
structure SchedulerStats where
  leases : Nat
  skipped_due_to_quota : Nat
  completed : Nat
deriving DecidableEq, Repr

/-- Modelled from the spec: the scheduler's whole state — the queue (in
enqueue order; `snapshot` sorts it), the currently-active `(run_id,
tenant_id)` pairs, the policy and the stats (§2, §4.5, §4.6). -/
structure SchedState where
  queue : List QueueEntry
  active : List (Nat × Nat)
  policy : SchedulerPolicy
  stats : SchedulerStats
deriving DecidableEq, Repr

/-- Modelled from the spec: the queue's deterministic total order (§4.5
`snapshot`): priority descending, then enqueued_at ascending, then run_id
ascending. -/
def entryRel (a b : QueueEntry) : Prop :=
  b.priority < a.priority ∨
    (a.priority = b.priority ∧
      (a.enqueued_at < b.enqueued_at ∨
        (a.enqueued_at = b.enqueued_at ∧ a.run_id ≤ b.run_id)))

instance : DecidableRel entryRel := fun a b => by
  unfold entryRel; exact inferInstance

instance : IsTotal QueueEntry entryRel := ⟨by
  intro a b; unfold entryRel; omega⟩

instance : IsTrans QueueEntry entryRel := ⟨by
  intro a b c hab hbc; unfold entryRel at hab hbc ⊢; omega⟩

/-- Modelled from the spec: `snapshot()` (§4.5): the pending entries sorted by
the deterministic order `entryRel`. -/
def snapshot (s : SchedState) : List QueueEntry :=
  List.insertionSort entryRel s.queue

/-- Whether `run` is already present in the scheduler, queued or active
(§4.5: idempotent enqueue covers already-queued and already-leased runs). -/
def runPresent (s : SchedState) (run : Nat) : Bool :=
  s.queue.any (fun e => e.run_id == run) || s.active.any (fun p => p.1 == run)

/-- Modelled from the spec: `enqueue(run_id, tenant_id, priority)` (§4.5):
idempotent no-op when the run is already queued or active; `CapacityError`
when the queue already holds `queue_max` entries and the run is new;
otherwise appends a new entry stamped with the logical enqueue time `now`. -/
def enqueue (s : SchedState) (run tenant : Nat) (prio : Int) (now : Nat) :
    Except ApiError SchedState :=
  if runPresent s run then Except.ok s
  else if s.policy.queue_max ≤ s.queue.length then Except.error ApiError.capacity
  else Except.ok { s with queue := s.queue ++ [⟨run, tenant, prio, now⟩] }

/-- The number of currently-active runs of tenant `t`. -/
def tenantActiveCount (s : SchedState) (t : Nat) : Nat :=
  (s.active.filter (fun p => p.2 == t)).length

/-- Modelled from the spec: eligibility of a queue entry under the policy
(§4.6): its tenant's active-run count is below `tenant_max_active` and
selecting it would not bring active runs above `global_concurrency`. -/
def eligibleEntry (s : SchedState) (e : QueueEntry) : Bool :=
  decide (tenantActiveCount s e.tenant_id < s.policy.tenant_max_active) &&
    decide (s.active.length + 1 ≤ s.policy.global_concurrency)

/-- Modelled from the spec: the Lease/Step Coordinator's `step()` (§4.6).
Scans `snapshot` in its deterministic order for the first eligible entry. If
none is eligible it increments `skipped_due_to_quota` and leases nothing. On
selection it removes the entry from the queue, advances the run synchronously
(the advance is the engine driving of §4.1–§4.4, abstracted here as
`adv : run_id → resulting RunStatus`), keeps the capacity slot exactly while
the run is still `running`, releases it when the run reached a
terminal/paused state, increments `leases` and, if the run reached a terminal
state, `completed`. -/
def schedStep (s : SchedState) (adv : Nat → RunStatus) : SchedState × Option Nat :=
  match (snapshot s).find? (eligibleEntry s) with
  | none =>
    ({ s with stats :=
        { s.stats with skipped_due_to_quota := s.stats.skipped_due_to_quota + 1 } },
      none)
  | some e =>
    let st := adv e.run_id
    ({ queue := s.queue.filter (fun q => q.run_id != e.run_id)
      , active :=
          if st = RunStatus.running then (e.run_id, e.tenant_id) :: s.active
          else s.active
      , policy := s.policy
      , stats :=
          { leases := s.stats.leases + 1
          , skipped_due_to_quota := s.stats.skipped_due_to_quota
          , completed :=
              if st = RunStatus.completed ∨ st = RunStatus.failed then
                s.stats.completed + 1
              else s.stats.completed } },
      some e.run_id)

/-- The scheduler policy at its documented defaults (`SCHED_CONCURRENCY=2`,
`SCHED_TENANT_MAX_ACTIVE=1`, `SCHED_QUEUE_MAX=100`, `SCHED_ENABLED=1`). -/
def defaultPolicy : SchedulerPolicy := ⟨2, 1, 100, true⟩

/-- All-zero scheduler counters. -/
def zeroStats : SchedulerStats := ⟨0, 0, 0⟩

/-! ## History invariants (§3 StepAttempt, §8) -/

/-- Per step index, the recorded attempt numbers are exactly `1, 2, …, k` in
order (contiguous from 1, no gaps, no duplicates). -/
def ContigH (h : List StepAttempt) : Prop :=
  ∀ i, (attemptsOn h i).map StepAttempt.attempt =
    List.range' 1 (attemptsOn h i).length

/-- Per step index, at most one recorded attempt has status ok. -/
def OkUnique (h : List StepAttempt) : Prop :=
  ∀ i, okCount h i ≤ 1

/-- Every step index with no ok attempt has no attempts at all (holds for
every non-`failed` run: errors only accumulate at a step that then either
reaches ok or fails the whole run). -/
def Pending0 (h : List StepAttempt) : Prop :=
  ∀ i, hasOk h i = false → attemptsOn h i = []

/-! ## Concrete demonstration values -/

/-- The history of the first `n` graph steps, each succeeded on attempt 1. -/
def okHistTo (n : Nat) : List StepAttempt :=
  (stepsEnum.take n).map (fun p => ⟨p.1, p.2, 1, AttemptStatus.ok⟩)

/-- The history of a run whose every step succeeded on attempt 1. -/
def fullOkHistory : List StepAttempt := okHistTo graphSteps.length

/-- The history of the graph steps from index `n` on, each succeeded on
attempt 1. -/
def okHistFrom (n : Nat) : List StepAttempt :=
  (stepsEnum.drop n).map (fun p => ⟨p.1, p.2, 1, AttemptStatus.ok⟩)

/-- The run obtained by starting a fresh run with all-succeeding step
functions: completed, one ok attempt per step. -/
def demoRun : Run := ⟨RunStatus.completed, fullOkHistory⟩

/-- A step function that fails attempt 1 and succeeds from attempt 2 on
(exercises the retry loop without exhausting it). -/
def secondTry : StepFn := fun _ a => decide (2 ≤ a)

/-- The run obtained by starting a fresh run with `secondTry`: completed,
every step with one error attempt then one ok attempt. -/
def demoRetryRun : Run :=
  ⟨RunStatus.completed,
    stepsEnum.flatMap (fun p =>
      [⟨p.1, p.2, 1, AttemptStatus.error⟩, ⟨p.1, p.2, 2, AttemptStatus.ok⟩])⟩

/-- A run with every step succeeded but status still `running` (nothing left
to resume, not paused). -/
def demoNothingLeft : Run := ⟨RunStatus.running, fullOkHistory⟩

/-- Scheduler state: two queued runs of different tenants, nothing active,
`global_concurrency = 1`, `tenant_max_active = 1`. -/
def demoTwoTenants : SchedState :=
  ⟨[⟨1, 1, 0, 0⟩, ⟨2, 2, 0, 1⟩], [], ⟨1, 1, 100, true⟩, zeroStats⟩

/-- Scheduler state: a third run queued while another run is still active and
`global_concurrency = 1` — capacity exhausted. -/
def demoQuotaFull : SchedState :=
  ⟨[⟨3, 3, 0, 2⟩], [(9, 9)], ⟨1, 1, 100, true⟩, zeroStats⟩

/-- An advance that drives the leased run to `completed` synchronously. -/
def advCompleted : Nat → RunStatus := fun _ => RunStatus.completed

/-- Scheduler state: run 1 is active (leased) and no longer queued. -/
def demoActiveOnly : SchedState := ⟨[], [(1, 1)], defaultPolicy, zeroStats⟩

/-- Scheduler state: run 1 queued, nothing active. -/
def demoQueuedOne : SchedState := ⟨[⟨1, 1, 0, 0⟩], [], defaultPolicy, zeroStats⟩

/-- Scheduler state: queue at capacity (`queue_max = 1`, one entry). -/
def demoFullQueue : SchedState := ⟨[⟨1, 1, 0, 0⟩], [], ⟨2, 1, 1, true⟩, zeroStats⟩

/-- `demoTwoTenants` with different stats but the same queue (for the
snapshot determinism check). -/
def demoTwoTenantsAlt : SchedState :=
  ⟨[⟨1, 1, 0, 0⟩, ⟨2, 2, 0, 1⟩], [(7, 7)], defaultPolicy, ⟨5, 5, 5⟩⟩

/-! ## Helper lemmas about histories and the Retry Controller -/

theorem attemptsOn_append (h l : List StepAttempt) (i : Nat) :
    attemptsOn (h ++ l) i = attemptsOn h i ++ attemptsOn l i := by
  simp [attemptsOn]

theorem okCount_append (h l : List StepAttempt) (i : Nat) :
    okCount (h ++ l) i = okCount h i + okCount l i := by
  simp [okCount]

theorem hasOk_append (h l : List StepAttempt) (i : Nat) :
    hasOk (h ++ l) i = (hasOk h i || hasOk l i) := by
  simp [hasOk]

theorem okCount_eq_zero_of_not_hasOk (h : List StepAttempt) (i : Nat)
    (hno : hasOk h i = false) : okCount h i = 0 := by
  simp only [hasOk, List.any_eq_false] at hno
  simp only [okCount, List.length_eq_zero, List.filter_eq_nil_iff]
  exact hno

theorem tryAttempts_index (f : StepFn) (i : Nat) (name : String) :
    ∀ b k a, a ∈ (tryAttempts f i name k b).1 →
      a.step_index = i ∧ a.step_name = name := by
  intro b
  induction b with
  | zero => intro k a ha; simp [tryAttempts] at ha
  | succ b ih =>
    intro k a ha
    by_cases hf : f i k
    · simp [tryAttempts, hf] at ha
      subst ha; exact ⟨rfl, rfl⟩
    · simp [tryAttempts, hf] at ha
      rcases ha with ha | ha
      · subst ha; exact ⟨rfl, rfl⟩
      · exact ih (k + 1) a ha

theorem tryAttempts_map_attempt (f : StepFn) (i : Nat) (name : String) :
    ∀ b k, ((tryAttempts f i name k b).1).map StepAttempt.attempt =
      List.range' k ((tryAttempts f i name k b).1).length := by
  intro b
  induction b with
  | zero => intro k; simp [tryAttempts]
  | succ b ih =>
    intro k
    by_cases hf : f i k
    · simp [tryAttempts, hf]
    · simp only [tryAttempts, hf, if_neg, Bool.false_eq_true, not_false_iff,
        List.map_cons, List.length_cons]
      rw [List.range'_succ, ih (k + 1)]

theorem tryAttempts_okCount (f : StepFn) (i : Nat) (name : String) :
    ∀ b k, okCount (tryAttempts f i name k b).1 i ≤ 1 := by
  intro b
  induction b with
  | zero => intro k; simp [tryAttempts, okCount]
  | succ b ih =>
    intro k
    by_cases hf : f i k
    · simp [tryAttempts, hf, okCount]
    · simpa [tryAttempts, hf, okCount] using ih (k + 1)

theorem tryAttempts_success_hasOk (f : StepFn) (i : Nat) (name : String) :
    ∀ b k, (tryAttempts f i name k b).2 = true →
      hasOk (tryAttempts f i name k b).1 i = true := by
  intro b
  induction b with
  | zero => intro k hk; simp [tryAttempts] at hk
  | succ b ih =>
    intro k hk
    by_cases hf : f i k
    · simp [tryAttempts, hf, hasOk]
    · simp only [tryAttempts, hf, if_neg, Bool.false_eq_true, not_false_iff] at hk ⊢
      have h2 := ih (k + 1) hk
      simp only [hasOk] at h2 ⊢
      simp [List.any_cons, h2]

theorem tryAttempts_all_fail (f : StepFn) (i : Nat) (name : String)
    (hf : ∀ a, f i a = false) :
    ∀ b k, tryAttempts f i name k b =
      ((List.range' k b).map (fun n => ⟨i, name, n, AttemptStatus.error⟩), false) := by
  intro b
  induction b with
  | zero => intro k; simp [tryAttempts]
  | succ b ih => intro k; simp [tryAttempts, hf, List.range'_succ, ih (k + 1)]

theorem attemptsOn_tryAttempts_self (f : StepFn) (i : Nat) (name : String)
    (b k : Nat) :
    attemptsOn (tryAttempts f i name k b).1 i = (tryAttempts f i name k b).1 := by
  simp only [attemptsOn, List.filter_eq_self]
  intro a ha
  simp [(tryAttempts_index f i name b k a ha).1]

theorem attemptsOn_tryAttempts_other (f : StepFn) (i : Nat) (name : String)
    (b k j : Nat) (hj : j ≠ i) :
    attemptsOn (tryAttempts f i name k b).1 j = [] := by
  simp only [attemptsOn, List.filter_eq_nil_iff]
  intro a ha
  simp [(tryAttempts_index f i name b k a ha).1, hj.symm]

theorem okCount_tryAttempts_other (f : StepFn) (i : Nat) (name : String)
    (b k j : Nat) (hj : j ≠ i) :
    okCount (tryAttempts f i name k b).1 j = 0 := by
  simp only [okCount, List.length_eq_zero, List.filter_eq_nil_iff]
  intro a ha
  simp [(tryAttempts_index f i name b k a ha).1, hj.symm]

theorem hasOk_tryAttempts_other (f : StepFn) (i : Nat) (name : String)
    (b k j : Nat) (hj : j ≠ i) :
    hasOk (tryAttempts f i name k b).1 j = false := by
  simp only [hasOk, List.any_eq_false]
  intro a ha
  simp [(tryAttempts_index f i name b k a ha).1, hj.symm]

theorem contig_append_block (f : StepFn) (name : String) (h : List StepAttempt)
    (i : Nat) (hc : ContigH h) :
    ContigH (h ++ (tryAttempts f i name (nextAttempt h i) retryMax).1) := by
  intro j
  by_cases hji : j = i
  · subst hji
    rw [attemptsOn_append, attemptsOn_tryAttempts_self, List.map_append,
      List.length_append, hc j, tryAttempts_map_attempt]
    have : nextAttempt h j = 1 + (attemptsOn h j).length := by
      simp [nextAttempt, Nat.add_comm]
    rw [this, List.range'_append_1, Nat.add_comm]
  · rw [attemptsOn_append, attemptsOn_tryAttempts_other f i name _ _ j hji,
      List.append_nil]
    exact hc j

theorem okUnique_append_block (f : StepFn) (name : String) (h : List StepAttempt)
    (i : Nat) (hok : hasOk h i = false) (hu : OkUnique h) :
    OkUnique (h ++ (tryAttempts f i name (nextAttempt h i) retryMax).1) := by
  intro j
  rw [okCount_append]
  by_cases hji : j = i
  · subst hji
    rw [okCount_eq_zero_of_not_hasOk h j hok, Nat.zero_add]
    exact tryAttempts_okCount f j name retryMax (nextAttempt h j)
  · rw [okCount_tryAttempts_other f i name _ _ j hji, Nat.add_zero]
    exact hu j

theorem pending0_append_block_success (f : StepFn) (name : String)
    (h : List StepAttempt) (i : Nat)
    (hsucc : (tryAttempts f i name (nextAttempt h i) retryMax).2 = true)
    (hp : Pending0 h) :
    Pending0 (h ++ (tryAttempts f i name (nextAttempt h i) retryMax).1) := by
  intro j hno
  rw [hasOk_append] at hno
  by_cases hji : j = i
  · subst hji
    rw [tryAttempts_success_hasOk f j name retryMax (nextAttempt h j) hsucc] at hno
    simp at hno
  · rw [attemptsOn_append, attemptsOn_tryAttempts_other f i name _ _ j hji,
      List.append_nil]
    exact hp j (by
      rcases Bool.or_eq_false_iff.mp hno with ⟨h1, _⟩
      exact h1)

theorem execSteps_inv (f : StepFn) (so : Option String) :
    ∀ (steps : List (Nat × String)) (h : List StepAttempt),
      ContigH h → OkUnique h → Pending0 h →
      ContigH (execSteps f so steps h).1 ∧ OkUnique (execSteps f so steps h).1 ∧
        ((execSteps f so steps h).2 ≠ RunStatus.failed →
          Pending0 (execSteps f so steps h).1) := by
  intro steps
  induction steps with
  | nil =>
    intro h hc hu hp
    exact ⟨hc, hu, fun _ => hp⟩
  | cons p rest ih =>
    obtain ⟨i, name⟩ := p
    intro h hc hu hp
    cases hok : hasOk h i with
    | true => simpa [execSteps, hok] using ih h hc hu hp
    | false =>
      have hc' := contig_append_block f name h i hc
      have hu' := okUnique_append_block f name h i hok hu
      cases hr2 : (tryAttempts f i name (nextAttempt h i) retryMax).2 with
      | false =>
        refine ⟨?_, ?_, ?_⟩ <;> simp only [execSteps, hok, hr2] <;>
          simp only [Bool.false_eq_true, if_false]
        · exact hc'
        · exact hu'
        · intro hne; exact absurd rfl hne
      | true =>
        have hp' := pending0_append_block_success f name h i hr2 hp
        cases hstop : (so == some name) with
        | true =>
          refine ⟨?_, ?_, ?_⟩ <;>
            simp only [execSteps, hok, hr2, hstop, Bool.false_eq_true, if_false,
              if_true]
          · exact hc'
          · exact hu'
          · exact fun _ => hp'
        | false =>
          have := ih (h ++ (tryAttempts f i name (nextAttempt h i) retryMax).1)
            hc' hu' hp'
          simpa [execSteps, hok, hr2, hstop] using this

/-- Every reachable run satisfies the history invariants; in addition, in a
non-`failed` run every step without an ok attempt has no attempts at all. -/
theorem reachable_inv (r : Run) (hr : Reachable r) :
    ContigH r.history ∧ OkUnique r.history ∧
      (r.status ≠ RunStatus.failed → Pending0 r.history) := by
  induction hr with
  | fresh =>
    refine ⟨?_, ?_, ?_⟩ <;> intro i <;>
      simp [freshRun, attemptsOn, okCount, ContigH, OkUnique, Pending0]
  | start f so r r' _ hok ih =>
    obtain ⟨hc, hu, hp⟩ := ih
    unfold startRun at hok
    split at hok
    · cases hok
    · rename_i hterm
      have hnf : r.status ≠ RunStatus.failed := fun hf => hterm (Or.inr hf)
      have hres := execSteps_inv f so stepsEnum r.history hc hu (hp hnf)
      cases hok
      exact hres
  | resume f r r' _ hok ih =>
    obtain ⟨hc, hu, hp⟩ := ih
    unfold resumeRun at hok
    split at hok
    · cases hok
    · rename_i hterm
      have hnf : r.status ≠ RunStatus.failed := fun hf => hterm (Or.inr hf)
      have hres := execSteps_inv f none stepsEnum r.history hc hu (hp hnf)
      split at hok
      · cases hok
      · cases hok
        exact hres

/-- If `firstPending` reports step `(i, name)`, then step `i` has no ok
attempt yet. -/
theorem firstPending_not_hasOk (h : List StepAttempt) :
    ∀ (steps : List (Nat × String)) (i : Nat) (name : String),
      firstPending h steps = some (i, name) → hasOk h i = false := by
  intro steps
  induction steps with
  | nil => intro i name hfp; simp [firstPending] at hfp
  | cons p rest ih =>
    obtain ⟨j, m⟩ := p
    intro i name hfp
    cases hok : hasOk h j with
    | true => exact ih i name (by simpa [firstPending, hok] using hfp)
    | false =>
      simp only [firstPending, hok, Bool.false_eq_true, if_false] at hfp
      cases hfp
      exact hok

/-- If every step of the Graph Definition already has an ok attempt, there is
nothing pending. -/
theorem firstPending_eq_none (h : List StepAttempt) :
    ∀ (steps : List (Nat × String)),
      (∀ p ∈ steps, hasOk h p.1 = true) → firstPending h steps = none := by
  intro steps
  induction steps with
  | nil => intro _; rfl
  | cons p rest ih =>
    obtain ⟨j, m⟩ := p
    intro hall
    have hj : hasOk h j = true := hall (j, m) (List.mem_cons_self _ _)
    simp only [firstPending, hj, if_true]
    exact ih (fun q hq => hall q (List.mem_cons_of_mem _ hq))

/-- On a step function that fails on every invocation of the pending step,
the engine records exactly three error attempts (numbers 1, 2, 3, the retry
budget) at that step and stops the run with status `failed`. -/
theorem execSteps_fail_at (f : StepFn) (so : Option String) (i : Nat)
    (name : String) (hf : ∀ a, f i a = false) :
    ∀ (steps : List (Nat × String)) (h : List StepAttempt),
      firstPending h steps = some (i, name) → attemptsOn h i = [] →
      execSteps f so steps h =
        (h ++ [⟨i, name, 1, AttemptStatus.error⟩, ⟨i, name, 2, AttemptStatus.error⟩,
          ⟨i, name, 3, AttemptStatus.error⟩], RunStatus.failed) := by
  intro steps
  induction steps with
  | nil => intro h hfp _; simp [firstPending] at hfp
  | cons p rest ih =>
    obtain ⟨j, m⟩ := p
    intro h hfp hemp
    cases hok : hasOk h j with
    | true =>
      simp only [firstPending, hok, if_true] at hfp
      simpa [execSteps, hok] using ih h hfp hemp
    | false =>
      simp only [firstPending, hok, Bool.false_eq_true, if_false] at hfp
      obtain ⟨hji, hmn⟩ : j = i ∧ m = name := by
        cases hfp; exact ⟨rfl, rfl⟩
      subst hji; subst hmn
      have hna : nextAttempt h j = 1 := by simp [nextAttempt, hemp]
      have htry := tryAttempts_all_fail f j m hf retryMax 1
      simp only [execSteps, hok, Bool.false_eq_true, if_false, hna, htry]
      simp [htry, List.range', retryMax]

/-- `find?` returns the head of the suffix after a prefix of non-matches. -/
theorem find_of_split {α : Type} (p : α → Bool) :
    ∀ (l₁ : List α) (a : α) (l₂ : List α),
      (∀ x ∈ l₁, p x = false) → p a = true →
      (l₁ ++ a :: l₂).find? p = some a := by
  intro l₁
  induction l₁ with
  | nil => intro a l₂ _ hpa; simp [List.find?_cons_of_pos _ hpa]
  | cons x xs ih =>
    intro a l₂ hall hpa
    have hx : ¬ (p x = true) := by
      simp [hall x (List.mem_cons_self _ _)]
    rw [List.cons_append, List.find?_cons_of_neg _ hx]
    exact ih a l₂ (fun y hy => hall y (List.mem_cons_of_mem _ hy)) hpa

/-! ## Claim theorems -/

/-- C1: for every (reachable, startable) run whose next pending graph step
has a step function failing on every invocation, executing that step via the
Retry Controller records exactly 3 StepAttempt rows with status error for
that step index, with attempt numbers 1, 2, 3, leaves the run `failed`, and
makes no further automatic attempts: the history holds exactly those three
rows for that index and the failed run rejects every further start/resume. -/
theorem retry_exhausts_three_error_attempts (f : StepFn) (r : Run) (i : Nat)
    (name : String) (hr : Reachable r)
    (hnc : r.status ≠ RunStatus.completed) (hnf : r.status ≠ RunStatus.failed)
    (hnext : firstPending r.history stepsEnum = some (i, name))
    (hf : ∀ a, f i a = false) :
    ∃ r', startRun f none r = Except.ok r' ∧
      r'.status = RunStatus.failed ∧
      attemptsOn r'.history i =
        [⟨i, name, 1, AttemptStatus.error⟩, ⟨i, name, 2, AttemptStatus.error⟩,
          ⟨i, name, 3, AttemptStatus.error⟩] ∧
      (∀ (g : StepFn) (so : Option String),
        startRun g so r' = Except.error ApiError.invalidState) ∧
      (∀ g : StepFn, resumeRun g r' = Except.error ApiError.invalidState) := by
  have hemp : attemptsOn r.history i = [] := by
    obtain ⟨_, _, hp⟩ := reachable_inv r hr
    exact hp hnf i (firstPending_not_hasOk r.history stepsEnum i name hnext)
  have hexec := execSteps_fail_at f none i name hf stepsEnum r.history hnext hemp
  refine ⟨⟨RunStatus.failed,
    r.history ++ [⟨i, name, 1, AttemptStatus.error⟩, ⟨i, name, 2, AttemptStatus.error⟩,
      ⟨i, name, 3, AttemptStatus.error⟩]⟩, ?_, rfl, ?_, ?_, ?_⟩
  · unfold startRun
    rw [if_neg (fun hor => hor.elim hnc hnf), hexec]
  · rw [attemptsOn_append, hemp]
    simp [attemptsOn]
  · intro g so; simp [startRun]
  · intro g; simp [resumeRun]

/-- C1 witness: a fresh run with an everywhere-failing step function. -/
theorem retry_exhausts_three_error_attempts_witness :
    ∃ r', startRun alwaysFail none freshRun = Except.ok r' ∧
      r'.status = RunStatus.failed ∧
      attemptsOn r'.history 0 =
        [⟨0, "product", 1, AttemptStatus.error⟩, ⟨0, "product", 2, AttemptStatus.error⟩,
          ⟨0, "product", 3, AttemptStatus.error⟩] ∧
      (∀ (g : StepFn) (so : Option String),
        startRun g so r' = Except.error ApiError.invalidState) ∧
      (∀ g : StepFn, resumeRun g r' = Except.error ApiError.invalidState) :=
  retry_exhausts_three_error_attempts alwaysFail freshRun 0 "product"
    Reachable.fresh (by decide) (by decide) rfl (fun _ => rfl)

/-- C2 (amended): for every run started fresh with `stop_after` set to a step
name other than the last step, with step functions that succeed on every
invocation, the run pauses (no error recorded) after the named step, and a
single subsequent resume executes exactly the remaining steps in graph order
and completes the run. (As originally stated — for every step name — the
claim fails at the last step, `release`: see the counterexample.) -/
theorem stop_after_pauses_then_resume_completes (f : StepFn)
    (hf : ∀ i a, f i a = true) (name : String) (hmem : name ∈ graphSteps)
    (hlast : name ≠ "release") :
    ∃ r₁ r₂,
      startRun f (some name) freshRun = Except.ok r₁ ∧
      r₁.status = RunStatus.paused ∧
      (∀ a ∈ r₁.history, a.status = AttemptStatus.ok) ∧
      resumeRun f r₁ = Except.ok r₂ ∧
      r₂.status = RunStatus.completed ∧
      (∃ rest, r₂.history = r₁.history ++ rest) ∧
      r₂.history = fullOkHistory := by
  have hfe : f = alwaysOk := funext fun i => funext fun a => hf i a
  subst hfe
  simp only [graphSteps, List.mem_cons, List.not_mem_nil, or_false] at hmem
  rcases hmem with h | h | h | h | h | h | h
  · subst h
    exact ⟨⟨RunStatus.paused, okHistTo 1⟩, ⟨RunStatus.completed, fullOkHistory⟩,
      rfl, rfl, by decide, rfl, rfl, ⟨okHistFrom 1, rfl⟩, rfl⟩
  · subst h
    exact ⟨⟨RunStatus.paused, okHistTo 2⟩, ⟨RunStatus.completed, fullOkHistory⟩,
      rfl, rfl, by decide, rfl, rfl, ⟨okHistFrom 2, rfl⟩, rfl⟩
  · subst h
    exact ⟨⟨RunStatus.paused, okHistTo 3⟩, ⟨RunStatus.completed, fullOkHistory⟩,
      rfl, rfl, by decide, rfl, rfl, ⟨okHistFrom 3, rfl⟩, rfl⟩
  · subst h
    exact ⟨⟨RunStatus.paused, okHistTo 4⟩, ⟨RunStatus.completed, fullOkHistory⟩,
      rfl, rfl, by decide, rfl, rfl, ⟨okHistFrom 4, rfl⟩, rfl⟩
  · subst h
    exact ⟨⟨RunStatus.paused, okHistTo 5⟩, ⟨RunStatus.completed, fullOkHistory⟩,
      rfl, rfl, by decide, rfl, rfl, ⟨okHistFrom 5, rfl⟩, rfl⟩
  · subst h
    exact ⟨⟨RunStatus.paused, okHistTo 6⟩, ⟨RunStatus.completed, fullOkHistory⟩,
      rfl, rfl, by decide, rfl, rfl, ⟨okHistFrom 6, rfl⟩, rfl⟩
  · exact absurd h hlast

/-- C2 witness: `stop_after = "research"` with all-succeeding step functions,
exactly the spec's own scenario. -/
theorem stop_after_pauses_then_resume_completes_witness :
    ∃ r₁ r₂,
      startRun alwaysOk (some "research") freshRun = Except.ok r₁ ∧
      r₁.status = RunStatus.paused ∧
      (∀ a ∈ r₁.history, a.status = AttemptStatus.ok) ∧
      resumeRun alwaysOk r₁ = Except.ok r₂ ∧
      r₂.status = RunStatus.completed ∧
      (∃ rest, r₂.history = r₁.history ++ rest) ∧
      r₂.history = fullOkHistory :=
  stop_after_pauses_then_resume_completes alwaysOk (fun _ _ => rfl) "research"
    (by decide) (by decide)

/-- C2 counterexample: with `stop_after` set to the last step name
(`"release"`), the named step succeeds and the run pauses, but the single
subsequent resume is rejected with `InvalidStateError` (nothing left to
resume) instead of completing the run — so the claim fails as stated for
every step name. -/
theorem stop_after_release_counterexample :
    startRun alwaysOk (some "release") freshRun
      = Except.ok ⟨RunStatus.paused, fullOkHistory⟩ ∧
    resumeRun alwaysOk ⟨RunStatus.paused, fullOkHistory⟩
      = Except.error ApiError.invalidState :=
  ⟨rfl, rfl⟩

/-- C9: a resume (or start) request against a `completed` run fails with
`InvalidStateError`; the rejected call produces no new run state, so
repeating the request finds the identical run and fails identically
(idempotent rejection). -/
theorem resume_completed_rejected (f g : StepFn) (so : Option String) (r : Run)
    (hc : r.status = RunStatus.completed) :
    resumeRun f r = Except.error ApiError.invalidState ∧
    startRun g so r = Except.error ApiError.invalidState := by
  constructor
  · simp [resumeRun, hc]
  · simp [startRun, hc]

/-- C9 witness: the completed demonstration run. -/
theorem resume_completed_rejected_witness :
    resumeRun alwaysOk demoRun = Except.error ApiError.invalidState ∧
    startRun alwaysOk none demoRun = Except.error ApiError.invalidState :=
  resume_completed_rejected alwaysOk alwaysOk none demoRun rfl

/-- C10: a resume request against a run that is not paused and whose every
graph step already has an ok-status attempt is rejected with
`InvalidStateError` (the HTTP layer's 400), not treated as a successful
no-op, even when the run's status is not `completed`. -/
theorem resume_nothing_left_rejected (f : StepFn) (r : Run)
    (_hnp : r.status ≠ RunStatus.paused)
    (hall : ∀ p ∈ stepsEnum, hasOk r.history p.1 = true) :
    resumeRun f r = Except.error ApiError.invalidState := by
  unfold resumeRun
  split
  · rfl
  · rw [firstPending_eq_none r.history stepsEnum hall]

/-- C10 witness: a run with full ok history but status `running`. -/
theorem resume_nothing_left_rejected_witness :
    resumeRun alwaysOk demoNothingLeft = Except.error ApiError.invalidState :=
  resume_nothing_left_rejected alwaysOk demoNothingLeft (by decide) (by decide)

/-- C4: for every run reachable by any sequence of start/resume/step
operations, the attempt numbers recorded for each step index are exactly
`1, 2, …, k` in order — contiguous from 1, no gaps — and contain no
duplicates, so no (run id, step index, attempt number) triple repeats. -/
theorem history_attempts_contiguous (r : Run) (hr : Reachable r) (i : Nat) :
    (attemptsOn r.history i).map StepAttempt.attempt =
      List.range' 1 (attemptsOn r.history i).length ∧
    ((attemptsOn r.history i).map StepAttempt.attempt).Nodup := by
  have hc := (reachable_inv r hr).1 i
  refine ⟨hc, ?_⟩
  rw [hc]
  exact List.nodup_range' 1 _

/-- C4 witness: the run reached by starting a fresh run with `secondTry`
(each step records an error attempt 1 then an ok attempt 2), at the verify
step. -/
theorem history_attempts_contiguous_witness :
    (attemptsOn demoRetryRun.history 5).map StepAttempt.attempt =
      List.range' 1 (attemptsOn demoRetryRun.history 5).length ∧
    ((attemptsOn demoRetryRun.history 5).map StepAttempt.attempt).Nodup :=
  history_attempts_contiguous demoRetryRun
    (Reachable.start secondTry none freshRun demoRetryRun Reachable.fresh rfl) 5

/-- C5: for every run reachable by any sequence of start/resume/step
operations (retry iterations — including QA-loop iterations — are successive
attempts of the same step index), at most one StepAttempt per step index has
status ok. -/
theorem history_at_most_one_ok (r : Run) (hr : Reachable r) (i : Nat) :
    okCount r.history i ≤ 1 :=
  (reachable_inv r hr).2.1 i

/-- C5 witness: the completed demonstration run at the verify step. -/
theorem history_at_most_one_ok_witness : okCount demoRun.history 5 ≤ 1 :=
  history_at_most_one_ok demoRun
    (Reachable.start alwaysOk none freshRun demoRun Reachable.fresh rfl) 5

/-- C6: `snapshot()` returns the pending entries sorted by the deterministic
total order (priority descending, then enqueued timestamp ascending, then
run id ascending): the output is sorted under `entryRel`, is a permutation of
the queue contents, and any two states with identical queue contents produce
identical snapshots. -/
theorem snapshot_sorted_and_deterministic (s : SchedState) :
    List.Sorted entryRel (snapshot s) ∧ (snapshot s).Perm s.queue ∧
    ∀ s' : SchedState, s'.queue = s.queue → snapshot s' = snapshot s := by
  refine ⟨List.sorted_insertionSort entryRel s.queue,
    List.perm_insertionSort entryRel s.queue, ?_⟩
  intro s' hq
  unfold snapshot
  rw [hq]

/-- C6 witness: the two-tenant demonstration queue, and a state with the same
queue but different active set, policy and stats. -/
theorem snapshot_sorted_and_deterministic_witness :
    List.Sorted entryRel (snapshot demoTwoTenants) ∧
    (snapshot demoTwoTenants).Perm demoTwoTenants.queue ∧
    snapshot demoTwoTenantsAlt = snapshot demoTwoTenants :=
  ⟨(snapshot_sorted_and_deterministic demoTwoTenants).1,
    (snapshot_sorted_and_deterministic demoTwoTenants).2.1,
    (snapshot_sorted_and_deterministic demoTwoTenants).2.2 demoTwoTenantsAlt rfl⟩

/-- C7 counterexample: for a run that is leased/active but no longer queued,
re-enqueueing is a successful no-op (as the spec requires) but leaves zero
QueueEntries for that run id, not exactly one — refuting the claim as stated
for the "leased/active" half of its quantifier. -/
theorem enqueue_active_run_counterexample :
    enqueue demoActiveOnly 1 1 0 0 = Except.ok demoActiveOnly ∧
    ¬ ((demoActiveOnly.queue.filter (fun e => e.run_id == 1)).length = 1) :=
  ⟨rfl, by decide⟩

/-- C7 (amended): for every run id already present (queued or leased/active),
calling enqueue again with that run id is a no-op that succeeds without
error and leaves the queue unchanged — the number of QueueEntries for that
run id (exactly one when it is queued, zero when it is only leased) and the
length of `snapshot()` are unchanged. -/
theorem enqueue_idempotent_noop (s : SchedState) (run tenant : Nat) (prio : Int)
    (now : Nat) (hpres : runPresent s run = true) :
    ∃ s', enqueue s run tenant prio now = Except.ok s' ∧ s' = s ∧
      (s'.queue.filter (fun e => e.run_id == run)).length
        = (s.queue.filter (fun e => e.run_id == run)).length ∧
      (snapshot s').length = (snapshot s).length := by
  refine ⟨s, ?_, rfl, rfl, rfl⟩
  simp [enqueue, hpres]

/-- C7 witness: re-enqueueing the already-queued run 1. -/
theorem enqueue_idempotent_noop_witness :
    ∃ s', enqueue demoQueuedOne 1 1 0 9 = Except.ok s' ∧ s' = demoQueuedOne ∧
      (s'.queue.filter (fun e => e.run_id == 1)).length
        = (demoQueuedOne.queue.filter (fun e => e.run_id == 1)).length ∧
      (snapshot s').length = (snapshot demoQueuedOne).length :=
  enqueue_idempotent_noop demoQueuedOne 1 1 0 9 (by decide)

/-- C8: for a run id not already present, enqueue against a queue holding
exactly `queue_max` entries fails with `CapacityError` (the rejected call
returns no new state, so queue, policy and stats are unchanged), and enqueue
succeeds exactly when the queue holds fewer than `queue_max` entries. -/
theorem enqueue_backpressure (s : SchedState) (run tenant : Nat) (prio : Int)
    (now : Nat) (hnew : runPresent s run = false) :
    (s.queue.length = s.policy.queue_max →
      enqueue s run tenant prio now = Except.error ApiError.capacity) ∧
    ((∃ s', enqueue s run tenant prio now = Except.ok s') ↔
      s.queue.length < s.policy.queue_max) := by
  constructor
  · intro hfull
    simp [enqueue, hnew, hfull.symm.le]
  · constructor
    · rintro ⟨s', hs'⟩
      by_contra hge
      have hle : s.policy.queue_max ≤ s.queue.length := by omega
      simp [enqueue, hnew, hle] at hs'
    · intro hlt
      have hnle : ¬ s.policy.queue_max ≤ s.queue.length := by omega
      exact ⟨{ s with queue := s.queue ++ [⟨run, tenant, prio, now⟩] },
        by simp [enqueue, hnew, hnle]⟩

/-- C8 witness: a queue at capacity (`queue_max = 1`) rejecting a new run. -/
theorem enqueue_backpressure_witness :
    enqueue demoFullQueue 2 2 0 5 = Except.error ApiError.capacity ∧
    ¬ ∃ s', enqueue demoFullQueue 2 2 0 5 = Except.ok s' :=
  ⟨(enqueue_backpressure demoFullQueue 2 2 0 5 (by decide)).1 rfl,
    fun hex =>
      absurd ((enqueue_backpressure demoFullQueue 2 2 0 5 (by decide)).2.mp hex)
        (by decide)⟩

/-- C3: one `step()` call selects the first entry in the snapshot's
deterministic order whose tenant is below `tenant_max_active` and whose
selection would not exceed `global_concurrency`; if no entry is eligible it
increments `skipped_due_to_quota` and leases nothing. In particular (third
conjunct), with `global_concurrency = 1` two sequential `step()` calls over
two queued runs from different tenants lease exactly one run each — run 2
stays queued while run 1 is leased — and a queued run skips with
`skipped_due_to_quota` incremented when capacity is exhausted by an active
run. -/
theorem coordinator_step_leases_first_eligible (s : SchedState)
    (adv : Nat → RunStatus) :
    ((∀ e ∈ snapshot s, eligibleEntry s e = false) →
      (schedStep s adv).2 = none ∧
      (schedStep s adv).1.queue = s.queue ∧
      (schedStep s adv).1.active = s.active ∧
      (schedStep s adv).1.stats.skipped_due_to_quota
        = s.stats.skipped_due_to_quota + 1 ∧
      (schedStep s adv).1.stats.leases = s.stats.leases) ∧
    (∀ (l₁ : List QueueEntry) (e : QueueEntry) (l₂ : List QueueEntry),
      snapshot s = l₁ ++ e :: l₂ →
      (∀ x ∈ l₁, eligibleEntry s x = false) → eligibleEntry s e = true →
      (schedStep s adv).2 = some e.run_id ∧
      (schedStep s adv).1.queue = s.queue.filter (fun q => q.run_id != e.run_id) ∧
      (schedStep s adv).1.stats.leases = s.stats.leases + 1 ∧
      (schedStep s adv).1.stats.skipped_due_to_quota
        = s.stats.skipped_due_to_quota) ∧
    ((schedStep demoTwoTenants advCompleted).2 = some 1 ∧
      ((schedStep demoTwoTenants advCompleted).1.queue.map QueueEntry.run_id)
        = [2] ∧
      (schedStep (schedStep demoTwoTenants advCompleted).1 advCompleted).2
        = some 2 ∧
      (schedStep (schedStep demoTwoTenants advCompleted).1 advCompleted).1.queue
        = [] ∧
      (schedStep demoQuotaFull advCompleted).2 = none ∧
      (schedStep demoQuotaFull advCompleted).1.stats.skipped_due_to_quota
        = demoQuotaFull.stats.skipped_due_to_quota + 1) := by
  refine ⟨?_, ?_, by decide⟩
  · intro hnone
    have hfind : (snapshot s).find? (eligibleEntry s) = none := by
      rw [List.find?_eq_none]
      intro x hx
      simp [hnone x hx]
    simp [schedStep, hfind]
  · intro l₁ e l₂ hsnap hl₁ he
    have hfind : (snapshot s).find? (eligibleEntry s) = some e := by
      rw [hsnap]
      exact find_of_split (eligibleEntry s) l₁ e l₂ hl₁ he
    simp [schedStep, hfind]

/-- C3 witness: the two-tenant demonstration state — the first entry of the
snapshot is eligible and gets leased. -/
theorem coordinator_step_leases_first_eligible_witness :
    (schedStep demoTwoTenants advCompleted).2 = some 1 ∧
    (schedStep demoTwoTenants advCompleted).1.queue
      = demoTwoTenants.queue.filter (fun q => q.run_id != 1) ∧
    (schedStep demoTwoTenants advCompleted).1.stats.leases
      = demoTwoTenants.stats.leases + 1 ∧
    (schedStep demoTwoTenants advCompleted).1.stats.skipped_due_to_quota
      = demoTwoTenants.stats.skipped_due_to_quota := by
  have h := (coordinator_step_leases_first_eligible demoTwoTenants
    advCompleted).2.1 [] ⟨1, 1, 0, 0⟩ [⟨2, 2, 0, 1⟩] (by decide)
    (by intro x hx; cases hx) (by decide)
  exact h

end AICsuite
